import Mathlib

/-!
Shallow embedding of `logfile_parser.py` (class `LogParser`) and proofs about it.

The Python module matches log lines against three fixed regular expressions
(`apache`, `nginx`, `app`) with `re.match`, extracts capture groups, parses
timestamps with `datetime.strptime` (falling back to the raw text on
`ValueError`), and tallies frequencies with insertion-ordered dicts and
Python's stable `sorted`.

The regular expressions are embedded as data (`RE`) and executed by a
backtracking matcher (`mrun`) that mirrors Python `re` semantics for the
constructs these three patterns use: literals, single-character classes
(`\d`, `\w`, `.`), greedy and lazy repetition of a single-character class
(`\d{1,3}`, `\d+`, `\w+`, `.*`, `(.*?)`), alternation (`\d+|-`), and
capturing groups.  `re.match` anchors at the start of the string only, so a
match may consume a proper prefix of the line.
-/

namespace LogParser

/-- Single-character classes occurring in the source patterns.
`\d` and `\w` are modelled on their ASCII meaning (the log lines at issue are
ASCII); `.` matches any character except a newline. -/
inductive CC where
  | digit
  | word
  | dot
deriving DecidableEq, Repr

def CC.test : CC → Char → Bool
  | .digit, c => c.isDigit
  | .word, c => c.isAlphanum || c == '_'
  | .dot, c => c != '\n'

/-- Regular expressions, restricted to the constructs used by the three
patterns in `LogParser.__init__`.  Repetition (`rep cc lo hi lazyRep`)
repeats a single-character class between `lo` and `hi` times (`hi = none`
means unbounded); `lazyRep = true` is non-greedy (`*?`). -/
inductive RE where
  | lit (s : List Char)
  | cls (cc : CC)
  | seq (r1 r2 : RE)
  | alt (r1 r2 : RE)
  | grp (i : Nat) (r : RE)
  | rep (cc : CC) (lo : Nat) (hi : Option Nat) (lazyRep : Bool)
deriving DecidableEq, Repr

/-- Capture environment: group index paired with the captured characters.
The most recent binding for a group comes first. -/
abbrev Captures := List (Nat × List Char)

/-- Length of the longest prefix of `s` whose characters all satisfy `cc`. -/
def ccRun (cc : CC) : List Char → Nat
  | [] => 0
  | c :: s => if cc.test c then ccRun cc s + 1 else 0

/-- Try repetition counts in priority order: for each candidate count `n`,
run the continuation on the input with `n` characters consumed; the first
success wins (backtracking). -/
def tryLens (k : List Char → Captures → Option Captures) (caps : Captures)
    (s : List Char) : List Nat → Option Captures
  | [] => none
  | n :: ns =>
    match k (s.drop n) caps with
    | some r => some r
    | none => tryLens k caps s ns

/-- Backtracking matcher in continuation-passing style, mirroring Python
`re` semantics (leftmost alternative first; greedy repetition tries the
longest count first, lazy repetition the shortest). -/
def mrun : RE → List Char → Captures → (List Char → Captures → Option Captures) → Option Captures
  | .lit t, s, caps, k => if t.isPrefixOf s then k (s.drop t.length) caps else none
  | .cls cc, s, caps, k =>
    match s with
    | [] => none
    | c :: s1 => if cc.test c then k s1 caps else none
  | .seq r1 r2, s, caps, k => mrun r1 s caps (fun s1 caps1 => mrun r2 s1 caps1 k)
  | .alt r1 r2, s, caps, k =>
    match mrun r1 s caps k with
    | some r => some r
    | none => mrun r2 s caps k
  | .grp i r, s, caps, k =>
    mrun r s caps (fun s1 caps1 => k s1 ((i, s.take (s.length - s1.length)) :: caps1))
  | .rep cc lo hi lazyRep, s, caps, k =>
    let m := match hi with
      | some h => min (ccRun cc s) h
      | none => ccRun cc s
    if lo > m then none
    else
      let cand := List.range' lo (m - lo + 1)
      tryLens k caps s (if lazyRep then cand else cand.reverse)

/-- `re.match(pattern, s)`: anchored at the start, succeeds on any prefix.
Returns the capture environment of the first (leftmost-preference) match. -/
def reMatch (r : RE) (s : String) : Option Captures :=
  mrun r s.data [] (fun _ caps => some caps)

/-- Look up the text captured by group `i` (as `match.group(i)`). -/
def getCap (caps : Captures) (i : Nat) : Option String :=
  (caps.find? (fun p => p.1 == i)).map (fun p => String.mk p.2)

/-- Helper to build a literal piece of a pattern. -/
def reStr (s : String) : RE := .lit s.data

/-- `(.*?)` — lazy any-character repetition. -/
def lazyAny : RE := .rep .dot 0 none true

/-- `\d+` — greedy, at least one digit. -/
def digits1 : RE := .rep .digit 1 none false

/-- `\d{1,3}` — one to three digits, greedy. -/
def oct13 : RE := .rep .digit 1 (some 3) false

def reSeq (rs : List RE) : RE := rs.foldr RE.seq (.lit [])

/-- Pattern `'apache'`:
`(\d{1,3}\.\d{1,3}\.\d{1,3}\.\d{1,3}) - - \[(.*?)\] "(.*?)" (\d+) (\d+|-)` -/
def apacheRE : RE :=
  reSeq [.grp 1 (reSeq [oct13, reStr ".", oct13, reStr ".", oct13, reStr ".", oct13]),
         reStr " - - [", .grp 2 lazyAny, reStr "] \"", .grp 3 lazyAny, reStr "\" ",
         .grp 4 digits1, reStr " ", .grp 5 (.alt digits1 (reStr "-"))]

/-- Pattern `'nginx'`:
`(\d{1,3}\.\d{1,3}\.\d{1,3}\.\d{1,3}) - .* \[(.*?)\] "(.*?)" (\d+) (\d+) "(.*?)" "(.*?)"` -/
def nginxRE : RE :=
  reSeq [.grp 1 (reSeq [oct13, reStr ".", oct13, reStr ".", oct13, reStr ".", oct13]),
         reStr " - ", .rep .dot 0 none false, reStr " [", .grp 2 lazyAny, reStr "] \"",
         .grp 3 lazyAny, reStr "\" ", .grp 4 digits1, reStr " ", .grp 5 digits1,
         reStr " \"", .grp 6 lazyAny, reStr "\" \"", .grp 7 lazyAny, reStr "\""]

/-- Pattern `'app'`: `\[(.*?)\] \[(\w+)\] \[(.*?)\] (.*)` -/
def appRE : RE :=
  reSeq [reStr "[", .grp 1 lazyAny, reStr "] [", .grp 2 (.rep .word 1 none false),
         reStr "] [", .grp 3 lazyAny, reStr "] ", .grp 4 (.rep .dot 0 none false)]

/-- `self.patterns`: insertion-ordered dict, hence a fixed registration order
apache, nginx, app. -/
def patterns : List (String × RE) :=
  [("apache", apacheRE), ("nginx", nginxRE), ("app", appRE)]

/-- `detect_format`: first registered pattern that matches the sample wins;
`None` when no pattern matches. -/
def detect_format (log_sample : String) : Option String :=
  (patterns.find? (fun p => (reMatch p.2 log_sample).isSome)).map Prod.fst

/-!
## Timestamp parsing (`datetime.strptime`)

The source uses three fixed format strings: `"%d/%b/%Y:%H:%M:%S %z"`
(apache and nginx), `"%Y-%m-%d %H:%M:%S,%f"` and `"%Y-%m-%d %H:%M:%S"`
(app, primary and fallback).  CPython's `_strptime` compiles each directive
to a regex alternation (`%d` → `3[01]|[12]\d|0[1-9]|[1-9]`, `%H` →
`2[0-3]|[01]\d|\d`, `%M` → `[0-5]\d|\d`, `%S` → `6[0-1]|[0-5]\d|\d`, `%m` →
`1[0-2]|0[1-9]|[1-9]`, `%Y` → exactly four digits, `%b` → a case-insensitive
month abbreviation, `%f` → one to six digits right-padded to microseconds,
`%z` → `[+-]\d\d:?[0-5]\d(:?[0-5]\d(\.\d{1,6})?)?|Z`), requires the whole
input to be consumed, and finally constructs a `datetime`, which validates
ranges (year 1–9999, day within month, second ≤ 59, |UTC offset| < 24 h).
In these format strings every numeric directive is followed by a non-digit
literal or the end of input, so the alternation's two-digits-first
preference is deterministic and is modelled directly.
-/

/-- Result of `datetime.strptime`: a validated datetime; `tzoff` is the UTC
offset in seconds from `%z` (`none` for naive datetimes). -/
structure PyDatetime where
  year : Nat
  month : Nat
  day : Nat
  hour : Nat
  minute : Nat
  second : Nat
  microsecond : Nat
  tzoff : Option Int
deriving DecidableEq, Repr

def dval (c : Char) : Nat := c.toNat - 48

/-- Two-digits-if-valid-else-one-digit numeric directive (see module
comment: equivalent to the `_strptime` alternation in these formats). -/
def pNum2or1 (ok2 ok1 : Nat → Bool) : List Char → Option (Nat × List Char)
  | c1 :: c2 :: rest =>
    if c1.isDigit && c2.isDigit && ok2 (10 * dval c1 + dval c2) then
      some (10 * dval c1 + dval c2, rest)
    else if c1.isDigit && ok1 (dval c1) then some (dval c1, c2 :: rest)
    else none
  | [c1] => if c1.isDigit && ok1 (dval c1) then some (dval c1, []) else none
  | [] => none

def pLit (c : Char) : List Char → Option (List Char)
  | x :: r => if x == c then some r else none
  | [] => none

/-- `%Y`: exactly four digits. -/
def pYear4 : List Char → Option (Nat × List Char)
  | a :: b :: c :: d :: rest =>
    if a.isDigit && b.isDigit && c.isDigit && d.isDigit then
      some (1000 * dval a + 100 * dval b + 10 * dval c + dval d, rest)
    else none
  | _ => none

def monthNames : List String :=
  ["jan", "feb", "mar", "apr", "may", "jun", "jul", "aug", "sep", "oct", "nov", "dec"]

/-- `%b`: case-insensitive three-letter month abbreviation. -/
def pMonth : List Char → Option (Nat × List Char)
  | a :: b :: c :: rest =>
    match monthNames.findIdx? (fun m => m == String.mk [a.toLower, b.toLower, c.toLower]) with
    | some i => some (i + 1, rest)
    | none => none
  | _ => none

/-- `%f`: one to six digits, right-padded to microseconds
(`"5"` means 500000). -/
def pFrac (s : List Char) : Option (Nat × List Char) :=
  let ds := (s.takeWhile Char.isDigit).take 6
  if ds.isEmpty then none
  else some ((ds.foldl (fun a c => 10 * a + dval c) 0) * 10 ^ (6 - ds.length), s.drop ds.length)

def pDig2 : List Char → Option (Nat × List Char)
  | c1 :: c2 :: rest =>
    if c1.isDigit && c2.isDigit then some (10 * dval c1 + dval c2, rest) else none
  | _ => none

/-- `[0-5]\d` (minutes or seconds inside `%z`). -/
def pMM : List Char → Option (Nat × List Char)
  | c1 :: c2 :: rest =>
    if c1.isDigit && decide (dval c1 ≤ 5) && c2.isDigit then
      some (10 * dval c1 + dval c2, rest)
    else none
  | _ => none

def skipColon : List Char → List Char
  | ':' :: r => r
  | s => s

/-- `%z`: `Z`, or a signed `hh[:]mm` with optional `[:]ss` and optional
fractional seconds (the fraction is consumed; its sub-second contribution to
the offset is dropped).  `datetime.timezone` requires the offset to be
strictly below 24 hours. -/
def pTz : List Char → Option (Int × List Char)
  | 'Z' :: rest => some (0, rest)
  | c :: rest =>
    if c == '+' || c == '-' then do
      let (hh, s1) ← pDig2 rest
      let (mm, s2) ← pMM (skipColon s1)
      let (ss, s3) :=
        match pMM (skipColon s2) with
        | some (v, r) =>
          match r with
          | '.' :: r2 => if (r2.takeWhile Char.isDigit).isEmpty then (v, r)
                         else (v, r2.dropWhile Char.isDigit)
          | _ => (v, r)
        | none => (0, s2)
      let off : Nat := hh * 3600 + mm * 60 + ss
      if off < 86400 then
        some (if c == '-' then -(off : Int) else (off : Int), s3)
      else none
    else none
  | [] => none

/-- `datetime(...)` construction: validates field ranges, raising
`ValueError` (here: `none`) when out of range. -/
def daysInMonth (y m : Nat) : Nat :=
  if m == 2 then
    if y % 4 == 0 && (y % 100 != 0 || y % 400 == 0) then 29 else 28
  else if m == 4 || m == 6 || m == 9 || m == 11 then 30
  else 31

def mkDatetime (y mo d h mi s us : Nat) (tz : Option Int) : Option PyDatetime :=
  if 1 ≤ y ∧ y ≤ 9999 ∧ 1 ≤ d ∧ d ≤ daysInMonth y mo ∧ h ≤ 23 ∧ mi ≤ 59 ∧ s ≤ 59
      ∧ us ≤ 999999 then
    some ⟨y, mo, d, h, mi, s, us, tz⟩
  else none

/-- `datetime.strptime(ts, "%d/%b/%Y:%H:%M:%S %z")`. -/
def strptimeWeb (str : String) : Option PyDatetime := do
  let (d, s) ← pNum2or1 (fun v => decide (1 ≤ v ∧ v ≤ 31)) (fun v => decide (1 ≤ v)) str.data
  let s ← pLit '/' s
  let (mo, s) ← pMonth s
  let s ← pLit '/' s
  let (y, s) ← pYear4 s
  let s ← pLit ':' s
  let (h, s) ← pNum2or1 (fun v => decide (v ≤ 23)) (fun _ => true) s
  let s ← pLit ':' s
  let (mi, s) ← pNum2or1 (fun v => decide (v ≤ 59)) (fun _ => true) s
  let s ← pLit ':' s
  let (sec, s) ← pNum2or1 (fun v => decide (v ≤ 61)) (fun _ => true) s
  let s ← pLit ' ' s
  let (tz, s) ← pTz s
  if s.isEmpty then mkDatetime y mo d h mi sec 0 (some tz) else none

/-- Shared date-and-time part of the two app-log layouts:
`%Y-%m-%d %H:%M:%S`. -/
def pAppDateTime (str : String) : Option (Nat × Nat × Nat × Nat × Nat × Nat × List Char) := do
  let (y, s) ← pYear4 str.data
  let s ← pLit '-' s
  let (mo, s) ← pNum2or1 (fun v => decide (1 ≤ v ∧ v ≤ 12)) (fun v => decide (1 ≤ v)) s
  let s ← pLit '-' s
  let (d, s) ← pNum2or1 (fun v => decide (1 ≤ v ∧ v ≤ 31)) (fun v => decide (1 ≤ v)) s
  let s ← pLit ' ' s
  let (h, s) ← pNum2or1 (fun v => decide (v ≤ 23)) (fun _ => true) s
  let s ← pLit ':' s
  let (mi, s) ← pNum2or1 (fun v => decide (v ≤ 59)) (fun _ => true) s
  let s ← pLit ':' s
  let (sec, s) ← pNum2or1 (fun v => decide (v ≤ 61)) (fun _ => true) s
  pure (y, mo, d, h, mi, sec, s)

/-- `datetime.strptime(ts, "%Y-%m-%d %H:%M:%S,%f")` (primary app layout). -/
def strptimeAppMicro (str : String) : Option PyDatetime := do
  let (y, mo, d, h, mi, sec, s) ← pAppDateTime str
  let s ← pLit ',' s
  let (us, s) ← pFrac s
  if s.isEmpty then mkDatetime y mo d h mi sec us none else none

/-- `datetime.strptime(ts, "%Y-%m-%d %H:%M:%S")` (fallback app layout). -/
def strptimeAppPlain (str : String) : Option PyDatetime := do
  let (y, mo, d, h, mi, sec, s) ← pAppDateTime str
  if s.isEmpty then mkDatetime y mo d h mi sec 0 none else none

/-!
## Records and per-line extraction
-/

/-- The Python `timestamp` value is either a `datetime` or, when every
known layout fails (`ValueError` swallowed), the original text. -/
inductive TsVal where
  | dt (d : PyDatetime)
  | txt (s : String)
deriving DecidableEq, Repr

/-- One parsed log entry.  The Python parsers return plain dicts whose key
sets differ by format; an absent key is modelled as `none`.  `raw_entry` is
present in every format. -/
structure Entry where
  ip : Option String
  timestamp : Option TsVal
  method : Option String
  path : Option String
  http_version : Option String
  status : Option Int
  bytes_sent : Option Int
  referrer : Option String
  user_agent : Option String
  level : Option String
  module : Option String
  message : Option String
  raw_entry : String
deriving DecidableEq, Repr

/-- Python `str.split()` with no argument: split on whitespace runs,
discarding empty pieces.  `cur` holds the characters of the current word in
reverse. -/
def pySplitAux : List Char → List Char → List String
  | [], cur => if cur.isEmpty then [] else [String.mk cur.reverse]
  | c :: rest, cur =>
    if c.isWhitespace then
      (if cur.isEmpty then [] else [String.mk cur.reverse]) ++ pySplitAux rest []
    else pySplitAux rest (c :: cur)

def pySplit (s : String) : List String := pySplitAux s.data []

/-- `parse_request`: first token is the method, second the path, third (if
present) the HTTP version; fewer than two tokens gives three empty
strings. -/
def parse_request (request_string : String) : String × String × String :=
  match pySplit request_string with
  | m :: p :: rest =>
    (m, p, match rest with
           | v :: _ => v
           | [] => "")
  | _ => ("", "", "")

/-- Python `int(s)` on the strings this program feeds it (capture-group
text: plain nonnegative digit runs).  `none` models the `ValueError`
raised on non-numeric text. -/
def pyInt (s : String) : Option Int :=
  if !s.data.isEmpty && s.data.all Char.isDigit then
    some (Int.ofNat (s.data.foldl (fun n c => 10 * n + dval c) 0))
  else none

/-- Capture groups of a successful apache match:
(ip, timestamp, request, status, bytes_sent). -/
def apacheGroups (line : String) : Option (String × String × String × String × String) := do
  let caps ← reMatch apacheRE line
  let g1 ← getCap caps 1
  let g2 ← getCap caps 2
  let g3 ← getCap caps 3
  let g4 ← getCap caps 4
  let g5 ← getCap caps 5
  pure (g1, g2, g3, g4, g5)

/-- Capture groups of a successful nginx match:
(ip, timestamp, request, status, bytes_sent, referrer, user_agent). -/
def nginxGroups (line : String) :
    Option (String × String × String × String × String × String × String) := do
  let caps ← reMatch nginxRE line
  let g1 ← getCap caps 1
  let g2 ← getCap caps 2
  let g3 ← getCap caps 3
  let g4 ← getCap caps 4
  let g5 ← getCap caps 5
  let g6 ← getCap caps 6
  let g7 ← getCap caps 7
  pure (g1, g2, g3, g4, g5, g6, g7)

/-- Capture groups of a successful app match:
(timestamp, level, module, message). -/
def appGroups (line : String) : Option (String × String × String × String) := do
  let caps ← reMatch appRE line
  let g1 ← getCap caps 1
  let g2 ← getCap caps 2
  let g3 ← getCap caps 3
  let g4 ← getCap caps 4
  pure (g1, g2, g3, g4)

/-- Timestamp handling shared by `parse_apache` and `parse_nginx`:
`strptime` on success, otherwise the raw text (`except ValueError: pass`). -/
def webTimestamp (ts : String) : TsVal :=
  match strptimeWeb ts with
  | some d => .dt d
  | none => .txt ts

/-- `parse_apache`.  The `int(status)` / `int(bytes_sent)` conversions are
modelled with `pyInt`; they cannot fail here because the pattern only
captures digit runs (or `-`, which the code replaces by `0` first), so the
`none` branch of `pyInt` is unreachable and stands for the uncaught
`ValueError` Python would raise. -/
def parse_apache (line : String) : Option Entry :=
  match apacheGroups line with
  | none => none
  | some (ip, timestamp, request, status, bytes_sent) =>
    let (method, path, http_version) := parse_request request
    let bs : Option Int := if bytes_sent = "-" then some 0 else pyInt bytes_sent
    do
      let st ← pyInt status
      let b ← bs
      pure { ip := some ip, timestamp := some (webTimestamp timestamp),
             method := some method, path := some path, http_version := some http_version,
             status := some st, bytes_sent := some b, referrer := none, user_agent := none,
             level := none, module := none, message := none, raw_entry := line }

/-- `parse_nginx`. -/
def parse_nginx (line : String) : Option Entry :=
  match nginxGroups line with
  | none => none
  | some (ip, timestamp, request, status, bytes_sent, referrer, user_agent) =>
    let (method, path, http_version) := parse_request request
    do
      let st ← pyInt status
      let b ← pyInt bytes_sent
      pure { ip := some ip, timestamp := some (webTimestamp timestamp),
             method := some method, path := some path, http_version := some http_version,
             status := some st, bytes_sent := some b, referrer := some referrer,
             user_agent := some user_agent, level := none, module := none, message := none,
             raw_entry := line }

/-- `parse_app_log`: primary layout `%Y-%m-%d %H:%M:%S,%f`, fallback
`%Y-%m-%d %H:%M:%S`, raw text when both fail. -/
def parse_app_log (line : String) : Option Entry :=
  match appGroups line with
  | none => none
  | some (timestamp, level, moduleName, message) =>
    let ts : TsVal :=
      match strptimeAppMicro timestamp with
      | some d => .dt d
      | none =>
        match strptimeAppPlain timestamp with
        | some d => .dt d
        | none => .txt timestamp
    some { ip := none, timestamp := some ts, method := none, path := none,
           http_version := none, status := none, bytes_sent := none, referrer := none,
           user_agent := none, level := some level, module := some moduleName,
           message := some message, raw_entry := line }

/-!
## `parse_log`

The file is modelled as its list of lines (what `for line in file` yields,
without the trailing newlines); `file.readline()` on the detection pass is
the first element (`""` for an empty file).  Exceptions escaping
`parse_log` (the `ValueError` for undetectable formats) are modelled with
`Except String`.
-/

/-- Python `str.strip()`: drop leading and trailing whitespace (modelled on
the ASCII whitespace of log lines). -/
def pyStrip (s : String) : String :=
  String.mk (((s.data.dropWhile Char.isWhitespace).reverse.dropWhile Char.isWhitespace).reverse)

/-- Dispatch on the format name (the `if`/`elif` chain; an unknown name
leaves `entry = None` for every line). -/
def parseLine (log_format line : String) : Option Entry :=
  if log_format == "apache" then parse_apache line
  else if log_format == "nginx" then parse_nginx line
  else if log_format == "app" then parse_app_log line
  else none

/-- `if max_lines and line_count >= max_lines` (note `0` is falsy). -/
def capReached (max_lines : Option Int) (line_count : Int) : Bool :=
  match max_lines with
  | none => false
  | some m => m != 0 && decide (m ≤ line_count)

/-- The accumulation loop of `parse_log`: strip, skip empty lines (before
the line counter is touched), extract, count, stop at the cap. -/
def parseLoop (log_format : String) (max_lines : Option Int) :
    List String → List Entry → Int → List Entry
  | [], parsed_entries, _ => parsed_entries
  | l :: ls, parsed_entries, line_count =>
    let line := pyStrip l
    if line.isEmpty then parseLoop log_format max_lines ls parsed_entries line_count
    else
      let parsed_entries1 :=
        match parseLine log_format line with
        | some entry => parsed_entries ++ [entry]
        | none => parsed_entries
      let line_count1 := line_count + 1
      if capReached max_lines line_count1 then parsed_entries1
      else parseLoop log_format max_lines ls parsed_entries1 line_count1

/-- The detection branch: `detect_format` on the stripped first line;
failure raises `ValueError`. -/
def detectedFormat (lines : List String) : Except String String :=
  match detect_format (pyStrip (lines.headD "")) with
  | some f => .ok f
  | none => .error "Could not detect log format. Please specify explicitly."

/-- `parse_log(file_path, log_format=None, max_lines=None)`.  Detection
runs when `log_format` is falsy (`None` or `""`). -/
def parse_log (lines : List String) (log_format : Option String)
    (max_lines : Option Int) : Except String (List Entry) :=
  let fmtE : Except String String :=
    match log_format with
    | some f => if f = "" then detectedFormat lines else .ok f
    | none => detectedFormat lines
  fmtE.map (fun f => parseLoop f max_lines lines [] 0)

/-!
## `analyze`

Python dicts preserve insertion order, so a counting loop yields an
association list whose keys appear in first-seen order, and
`sorted(..., key=lambda x: x[1], reverse=True)` is a stable descending
sort by count.  A missing key (`entry["ip"]` on a record without `"ip"`)
raises `KeyError`, modelled as `.error` carrying the key name.
-/

/-- One step of `d[k] = d.get(k, 0) + 1` on an insertion-ordered dict. -/
def bump {α : Type} [DecidableEq α] : List (α × Nat) → α → List (α × Nat)
  | [], k => [(k, 1)]
  | (a, n) :: t, k => if a = k then (a, n + 1) :: t else (a, n) :: bump t k

/-- The counts dict obtained from a key sequence. -/
def buildCounts {α : Type} [DecidableEq α] (ks : List α) : List (α × Nat) :=
  ks.foldl bump []

/-- One iteration of a counting loop: `d[entry[key]] += 1`, raising
`KeyError` (carrying the key name) when the record lacks the key. -/
def countStep {α : Type} [DecidableEq α] (get : Entry → Option α) (key : String)
    (acc : List (α × Nat)) (e : Entry) : Except String (List (α × Nat)) :=
  match get e with
  | some v => .ok (bump acc v)
  | none => .error key

/-- A counting loop `for entry in parsed_entries: d[entry[key]] += 1`. -/
def countField {α : Type} [DecidableEq α] (get : Entry → Option α) (key : String)
    (entries : List Entry) : Except String (List (α × Nat)) :=
  entries.foldlM (countStep get key) []

/-- Insert into a list sorted by descending count, after every element of
at least the same count (so Python's stable `reverse=True` order is
preserved: an earlier-seen key precedes a later-seen key of equal
count). -/
def insertDesc {α : Type} (x : α × Nat) : List (α × Nat) → List (α × Nat)
  | [] => [x]
  | y :: ys => if y.2 ≤ x.2 then x :: y :: ys else y :: insertDesc x ys

/-- Python `sorted(items, key=lambda x: x[1], reverse=True)`: a stable
sort by descending count. -/
def sortCountDesc {α : Type} : List (α × Nat) → List (α × Nat)
  | [] => []
  | x :: xs => insertDesc x (sortCountDesc xs)

/-- The `analysis` dict: one optional slot per metric, `none` when the
metric was not computed. -/
structure Analysis where
  top_ips : Option (List (String × Nat))
  status_codes : Option (List (Int × Nat))
  top_paths : Option (List (String × Nat))
  log_levels : Option (List (String × Nat))
  top_modules : Option (List (String × Nat))
deriving DecidableEq, Repr

/-- `analyze` returns `{"error": "No entries to analyze"}` on empty input,
otherwise the analysis dict. -/
inductive AnalyzeResult where
  | noEntries
  | stats (a : Analysis)
deriving DecidableEq, Repr

/-- `analyze(parsed_entries)`: dimensions are chosen by inspecting the
first record's keys; every counting loop then reads that key from every
record (raising `KeyError` on a record that lacks it). -/
def analyze (parsed_entries : List Entry) : Except String AnalyzeResult :=
  match parsed_entries with
  | [] => .ok .noEntries
  | e0 :: _ => do
    let (top_ips, status_codes, top_paths) ←
      if e0.ip.isSome then do
        let ipc ← countField Entry.ip "ip" parsed_entries
        let stc ← countField Entry.status "status" parsed_entries
        let pc ←
          if e0.path.isSome then do
            let c ← countField Entry.path "path" parsed_entries
            pure (some ((sortCountDesc c).take 10))
          else pure none
        pure (some ((sortCountDesc ipc).take 10), some stc, pc)
      else pure (none, none, none)
    let (log_levels, top_modules) ←
      if e0.level.isSome then do
        let lc ← countField Entry.level "level" parsed_entries
        let mc ←
          if e0.module.isSome then do
            let c ← countField Entry.module "module" parsed_entries
            pure (some ((sortCountDesc c).take 10))
          else pure none
        pure (some lc, mc)
      else pure (none, none)
    pure (.stats ⟨top_ips, status_codes, top_paths, log_levels, top_modules⟩)

/-!
## Derived notions used to state the properties
-/

/-- The non-blank lines of a file, in order, after stripping. -/
def nonBlankLines (lines : List String) : List String :=
  (lines.map pyStrip).filter (fun s => !s.isEmpty)

/-- The distinct elements of a sequence in order of first appearance
(the key order of an insertion-ordered counting dict). -/
def firstSeen {α : Type} [DecidableEq α] (ks : List α) : List α :=
  ks.foldl (fun acc k => if k ∈ acc then acc else acc ++ [k]) []

/-- Decidable equality for `Except`, so concrete runs can be checked by
`decide`. -/
instance {ε α : Type} [DecidableEq ε] [DecidableEq α] : DecidableEq (Except ε α) := fun
  | .error e1, .error e2 =>
    if h : e1 = e2 then .isTrue (by rw [h]) else .isFalse (by intro hh; cases hh; exact h rfl)
  | .error _, .ok _ => .isFalse (by intro hh; cases hh)
  | .ok _, .error _ => .isFalse (by intro hh; cases hh)
  | .ok a1, .ok a2 =>
    if h : a1 = a2 then .isTrue (by rw [h]) else .isFalse (by intro hh; cases hh; exact h rfl)

end LogParser

set_option maxRecDepth 100000

namespace LogParser

/-!
## Helper lemmas
-/

/-- A record produced by `parse_apache` keeps the parsed line verbatim in
`raw_entry`. -/
theorem parse_apache_raw_entry (line : String) (e : Entry)
    (h : parse_apache line = some e) : e.raw_entry = line := by
  unfold parse_apache at h
  cases hg : apacheGroups line with
  | none => rw [hg] at h; cases h
  | some g =>
    obtain ⟨ip, ts, req, st, b⟩ := g
    rw [hg] at h
    simp only [Option.bind_eq_bind, Option.bind] at h
    rcases hpr : parse_request req with ⟨m0, p0, v0⟩
    rw [hpr] at h
    cases hst : pyInt st with
    | none => rw [hst] at h; cases h
    | some n =>
      cases hb : (if b = "-" then some 0 else pyInt b) with
      | none => rw [hst, hb] at h; cases h
      | some m => rw [hst, hb] at h; cases h; rfl

/-- A record produced by `parse_nginx` keeps the parsed line verbatim in
`raw_entry`. -/
theorem parse_nginx_raw_entry (line : String) (e : Entry)
    (h : parse_nginx line = some e) : e.raw_entry = line := by
  unfold parse_nginx at h
  cases hg : nginxGroups line with
  | none => rw [hg] at h; cases h
  | some g =>
    obtain ⟨ip, ts, req, st, b, rf, ua⟩ := g
    rw [hg] at h
    simp only [Option.bind_eq_bind, Option.bind] at h
    rcases hpr : parse_request req with ⟨m0, p0, v0⟩
    rw [hpr] at h
    cases hst : pyInt st with
    | none => rw [hst] at h; cases h
    | some n =>
      cases hb : pyInt b with
      | none => rw [hst, hb] at h; cases h
      | some m => rw [hst, hb] at h; cases h; rfl

/-- A record produced by `parse_app_log` keeps the parsed line verbatim in
`raw_entry`. -/
theorem parse_app_log_raw_entry (line : String) (e : Entry)
    (h : parse_app_log line = some e) : e.raw_entry = line := by
  unfold parse_app_log at h
  cases hg : appGroups line with
  | none => rw [hg] at h; cases h
  | some g =>
    obtain ⟨ts, lvl, mn, msg⟩ := g
    rw [hg] at h
    cases h
    rfl

/-- Any record produced by the format dispatch keeps the parsed line
verbatim in `raw_entry`. -/
theorem parseLine_raw_entry (f line : String) (e : Entry)
    (h : parseLine f line = some e) : e.raw_entry = line := by
  unfold parseLine at h
  by_cases h1 : f == "apache"
  · rw [if_pos h1] at h; exact parse_apache_raw_entry line e h
  · rw [if_neg h1] at h
    by_cases h2 : f == "nginx"
    · rw [if_pos h2] at h; exact parse_nginx_raw_entry line e h
    · rw [if_neg h2] at h
      by_cases h3 : f == "app"
      · rw [if_pos h3] at h; exact parse_app_log_raw_entry line e h
      · rw [if_neg h3] at h; cases h

/-- Every record accumulated by the parse loop either was already in the
accumulator or was extracted from the stripped text of one of the remaining
lines. -/
theorem mem_parseLoop (f : String) (ml : Option Int) :
    ∀ (ls : List String) (acc : List Entry) (c : Int) (e : Entry),
      e ∈ parseLoop f ml ls acc c →
      e ∈ acc ∨ ∃ l ∈ ls, parseLine f (pyStrip l) = some e := by
  intro ls
  induction ls with
  | nil =>
    intro acc c e h
    rw [parseLoop] at h
    exact .inl h
  | cons l ls ih =>
    intro acc c e h
    rw [parseLoop] at h
    by_cases hb : (pyStrip l).isEmpty
    · rw [if_pos hb] at h
      rcases ih acc c e h with h1 | ⟨l1, hl1, hpl⟩
      · exact .inl h1
      · exact .inr ⟨l1, List.mem_cons_of_mem l hl1, hpl⟩
    · rw [if_neg hb] at h
      have hacc : ∀ e1,
          e1 ∈ (match parseLine f (pyStrip l) with
                | some entry => acc ++ [entry]
                | none => acc) →
          e1 ∈ acc ∨ ∃ l1 ∈ l :: ls, parseLine f (pyStrip l1) = some e1 := by
        intro e1 he1
        cases hpl : parseLine f (pyStrip l) with
        | none => rw [hpl] at he1; exact .inl he1
        | some e2 =>
          rw [hpl] at he1
          rcases List.mem_append.mp he1 with h1 | h2
          · exact .inl h1
          · rcases List.mem_singleton.mp h2 with rfl
            exact .inr ⟨l, List.mem_cons_self l ls, hpl⟩
      by_cases hc : capReached ml (c + 1)
      · rw [if_pos hc] at h
        exact hacc e h
      · rw [if_neg hc] at h
        rcases ih _ (c + 1) e h with h1 | ⟨l1, hl1, hpl⟩
        · exact hacc e h1
        · exact .inr ⟨l1, List.mem_cons_of_mem l hl1, hpl⟩

/-!
## The claims
-/

/-- C5: `detect_format` is deterministic (it is a pure function: repeated
calls on the same sample are the same term), tries the patterns in the
fixed registration order apache, nginx, app, returns the earliest
registered match, and returns `none` when no pattern matches. -/
theorem detect_format_first_registered_wins (s : String) :
    detect_format s = detect_format s
    ∧ ((reMatch apacheRE s).isSome = true → detect_format s = some "apache")
    ∧ ((reMatch apacheRE s).isSome = false → (reMatch nginxRE s).isSome = true →
         detect_format s = some "nginx")
    ∧ ((reMatch apacheRE s).isSome = false → (reMatch nginxRE s).isSome = false →
         (reMatch appRE s).isSome = true → detect_format s = some "app")
    ∧ ((reMatch apacheRE s).isSome = false → (reMatch nginxRE s).isSome = false →
         (reMatch appRE s).isSome = false → detect_format s = none) := by
  refine ⟨rfl, fun h1 => ?_, fun h1 h2 => ?_, fun h1 h2 h3 => ?_, fun h1 h2 h3 => ?_⟩ <;>
    simp [detect_format, patterns, List.find?, h1]
  · simp [h2]
  · simp [h2, h3]
  · simp [h2, h3]

/-- Witness for C5 at a line that matches both the apache and the nginx
patterns: the earlier-registered apache format wins. -/
theorem detect_format_first_registered_wins_witness :
    detect_format "1.2.3.4 - - [10/Oct/2023:13:55:36 +0000] \"GET /i HTTP/1.1\" 200 512 \"http://r.example\" \"Mozilla/5.0\"" = some "apache"
    ∧ (reMatch nginxRE "1.2.3.4 - - [10/Oct/2023:13:55:36 +0000] \"GET /i HTTP/1.1\" 200 512 \"http://r.example\" \"Mozilla/5.0\"").isSome = true :=
  ⟨(detect_format_first_registered_wins _).2.1 (by decide), by decide⟩

/-- C9: a well-formed extended (nginx) request line also matches a prefix
of the basic (apache) pattern, so `detect_format` classifies it as apache;
auto-detecting `parse_log` therefore parses it with `parse_apache`, whose
record carries no referrer or client-agent, although `parse_nginx` would
have extracted both. -/
theorem nginx_line_detected_as_apache :
    (reMatch nginxRE "1.2.3.4 - - [10/Oct/2023:13:55:36 +0000] \"GET /i HTTP/1.1\" 200 512 \"http://r.example\" \"Mozilla/5.0\"").isSome = true
    ∧ detect_format "1.2.3.4 - - [10/Oct/2023:13:55:36 +0000] \"GET /i HTTP/1.1\" 200 512 \"http://r.example\" \"Mozilla/5.0\"" = some "apache"
    ∧ parse_log ["1.2.3.4 - - [10/Oct/2023:13:55:36 +0000] \"GET /i HTTP/1.1\" 200 512 \"http://r.example\" \"Mozilla/5.0\""] none none
        = .ok (parse_apache "1.2.3.4 - - [10/Oct/2023:13:55:36 +0000] \"GET /i HTTP/1.1\" 200 512 \"http://r.example\" \"Mozilla/5.0\"").toList
    ∧ (parse_apache "1.2.3.4 - - [10/Oct/2023:13:55:36 +0000] \"GET /i HTTP/1.1\" 200 512 \"http://r.example\" \"Mozilla/5.0\"").map
        (fun e => (e.referrer, e.user_agent)) = some (none, none)
    ∧ (parse_nginx "1.2.3.4 - - [10/Oct/2023:13:55:36 +0000] \"GET /i HTTP/1.1\" 200 512 \"http://r.example\" \"Mozilla/5.0\"").map
        (fun e => (e.referrer, e.user_agent)) = some (some "http://r.example", some "Mozilla/5.0") :=
  ⟨by decide, by decide, by decide, by decide, by decide⟩

/-- C2 counterexample: the first line of the file is blank while the
second is a perfectly detectable apache line; detection nevertheless runs
on the (stripped) literal first line only — `file.readline()`, not the
first non-empty line — so the whole parse fails. -/
theorem detection_ignores_later_lines :
    detect_format "1.1.1.1 - - [10/Oct/2023:13:55:36 +0000] \"GET /a HTTP/1.1\" 200 5" = some "apache"
    ∧ parse_log ["", "1.1.1.1 - - [10/Oct/2023:13:55:36 +0000] \"GET /a HTTP/1.1\" 200 5"] none none
        = .error "Could not detect log format. Please specify explicitly." :=
  ⟨by decide, by decide⟩

/-- C2 (amended): with no format supplied, `parse_log` reads only the
file's literal first line (stripped) — not the first non-empty line — and
runs detection on it; if that fails the whole operation fails with the
"could not detect" error and no partial results, otherwise the file is
parsed with the detected format. -/
theorem parse_log_detection_uses_first_line (lines : List String) (k : Option Int) :
    (detect_format (pyStrip (lines.headD "")) = none →
       parse_log lines none k = .error "Could not detect log format. Please specify explicitly.")
    ∧ (∀ f, detect_format (pyStrip (lines.headD "")) = some f →
       parse_log lines none k = .ok (parseLoop f k lines [] 0)) := by
  constructor
  · intro h
    unfold parse_log detectedFormat
    rw [h]
    rfl
  · intro f h
    unfold parse_log detectedFormat
    rw [h]
    rfl

/-- Witness for C2 (amended) at a one-line undetectable file. -/
theorem parse_log_detection_uses_first_line_witness :
    parse_log ["zzz"] none none = .error "Could not detect log format. Please specify explicitly." :=
  (parse_log_detection_uses_first_line ["zzz"] none).1 (by decide)

/-- C10 counterexample: the empty string is a format identifier outside
the registry's known set, yet supplying it does not skip detection — it is
falsy, so detection runs and (here) the whole parse errors instead of
returning the empty sequence. -/
theorem empty_format_triggers_detection :
    parse_log ["zzz"] (some "") none ≠ .ok []
    ∧ parse_log ["zzz"] (some "") none
        = .error "Could not detect log format. Please specify explicitly." :=
  ⟨by decide, by decide⟩

/-- C10 (amended): for every non-empty supplied format identifier outside
the registry's known set, `parse_log` skips detection, matches no line
against any extraction branch, and returns the empty sequence; the empty
identifier instead triggers detection (it is falsy in Python). -/
theorem parse_log_unknown_format (lines : List String) (f : String) (k : Option Int)
    (hne : f ≠ "") (h1 : f ≠ "apache") (h2 : f ≠ "nginx") (h3 : f ≠ "app") :
    parse_log lines (some f) k = .ok [] := by
  have hpl : ∀ line, parseLine f line = none := by
    intro line
    simp [parseLine, h1, h2, h3]
  have loop : ∀ ls (acc : List Entry) c, parseLoop f k ls acc c = acc := by
    intro ls
    induction ls with
    | nil => intro acc c; rw [parseLoop]
    | cons l ls ih =>
      intro acc c
      rw [parseLoop]
      by_cases hb : (pyStrip l).isEmpty
      · rw [if_pos hb]
        exact ih acc c
      · rw [if_neg hb, hpl]
        by_cases hc : capReached k (c + 1)
        · rw [if_pos hc]
        · rw [if_neg hc]
          exact ih acc (c + 1)
  simp [parse_log, hne, Except.map, loop]

/-- Witness for C10 (amended): an unknown format name over an otherwise
parseable file yields the empty record list. -/
theorem parse_log_unknown_format_witness :
    parse_log ["[2023-01-02 03:04:05] [INFO] [auth] ok"] (some "xml") none = .ok [] :=
  parse_log_unknown_format _ "xml" none (by decide) (by decide) (by decide) (by decide)

/-- C1 counterexample: (extended format) a well-formed nginx line whose
bytes-sent field is the no-value marker `-` produces no record at all —
the nginx pattern only admits digits there — contradicting the claimed
`bytes_sent == 0` record; (basic format) an apache line whose bytes-sent
field is the non-numeric text `12ab` produces a record with
`bytes_sent = 12`, because the unanchored pattern matches the digit
prefix, contradicting the claimed "no record". -/
theorem bytes_sent_claim_counterexample :
    parse_nginx "1.2.3.4 - - [10/Oct/2023:13:55:36 +0000] \"GET /i HTTP/1.1\" 200 - \"http://r.example\" \"Mozilla/5.0\"" = none
    ∧ parse_log ["1.2.3.4 - - [10/Oct/2023:13:55:36 +0000] \"GET /i HTTP/1.1\" 200 - \"http://r.example\" \"Mozilla/5.0\""]
        (some "nginx") none = .ok []
    ∧ (parse_apache "1.1.1.1 - - [10/Oct/2023:13:55:36 +0000] \"GET /a HTTP/1.1\" 200 12ab").map
        Entry.bytes_sent = some (some 12) :=
  ⟨by decide, by decide, by decide⟩

/-- C1 (amended): in the basic format a matched line whose bytes-sent
capture is `-` yields `bytes_sent = 0` and a numeric capture is carried
over; a bytes field with no leading digits fails the pattern (no record),
while a digit-prefixed non-numeric field still yields a record with the
numeric prefix; the extended pattern requires digits, so `-` yields no
record there, and a matched extended line always carries its numeric bytes
capture. -/
theorem bytes_sent_normalization :
    (∀ line ip ts req st n, apacheGroups line = some (ip, ts, req, st, "-") →
        pyInt st = some n →
        ∃ e, parse_apache line = some e ∧ e.bytes_sent = some 0)
    ∧ (∀ line ip ts req st b n m, apacheGroups line = some (ip, ts, req, st, b) →
        b ≠ "-" → pyInt st = some n → pyInt b = some m →
        ∃ e, parse_apache line = some e ∧ e.bytes_sent = some m)
    ∧ parse_apache "1.1.1.1 - - [10/Oct/2023:13:55:36 +0000] \"GET /a HTTP/1.1\" 200 xyz" = none
    ∧ (parse_apache "1.1.1.1 - - [10/Oct/2023:13:55:36 +0000] \"GET /a HTTP/1.1\" 200 12ab").map
        Entry.bytes_sent = some (some 12)
    ∧ parse_nginx "1.2.3.4 - - [10/Oct/2023:13:55:36 +0000] \"GET /i HTTP/1.1\" 200 - \"http://r.example\" \"Mozilla/5.0\"" = none
    ∧ (∀ line ip ts req st b rf ua n m,
        nginxGroups line = some (ip, ts, req, st, b, rf, ua) →
        pyInt st = some n → pyInt b = some m →
        ∃ e, parse_nginx line = some e ∧ e.bytes_sent = some m) := by
  refine ⟨?_, ?_, by decide, by decide, by decide, ?_⟩
  · intro line ip ts req st n hg hst
    unfold parse_apache
    rw [hg]
    dsimp only
    rcases parse_request req with ⟨m0, p0, v0⟩
    simp only [hst]
    exact ⟨_, rfl, rfl⟩
  · intro line ip ts req st b n m hg hb hst hbi
    unfold parse_apache
    rw [hg]
    dsimp only
    rcases parse_request req with ⟨m0, p0, v0⟩
    rw [if_neg hb]
    simp only [hst, hbi]
    exact ⟨_, rfl, rfl⟩
  · intro line ip ts req st b rf ua n m hg hst hbi
    unfold parse_nginx
    rw [hg]
    dsimp only
    rcases parse_request req with ⟨m0, p0, v0⟩
    simp only [hst, hbi]
    exact ⟨_, rfl, rfl⟩

/-- Witness for C1 (amended): a basic line with the `-` marker produces a
record with zero bytes, and a basic line with numeric bytes carries them. -/
theorem bytes_sent_normalization_witness :
    (parse_apache "1.1.1.1 - - [bad ts] \"POST /b\" 404 -").map Entry.bytes_sent
      = some (some 0)
    ∧ (parse_apache "1.1.1.1 - - [bad ts] \"POST /b\" 404 77").map Entry.bytes_sent
      = some (some 77) := by
  constructor
  · obtain ⟨e, he, hb⟩ := bytes_sent_normalization.1
      "1.1.1.1 - - [bad ts] \"POST /b\" 404 -" "1.1.1.1" "bad ts" "POST /b" "404" 404
      (by decide) (by decide)
    rw [he]
    simp [hb]
  · obtain ⟨e, he, hb⟩ := bytes_sent_normalization.2.1
      "1.1.1.1 - - [bad ts] \"POST /b\" 404 77" "1.1.1.1" "bad ts" "POST /b" "404" "77" 404 77
      (by decide) (by decide) (by decide) (by decide)
    rw [he]
    simp [hb]

/-- C6: for every line that matches its format's pattern (and whose
captured numeric fields convert, as the patterns guarantee), a record is
produced; the web formats attempt only the primary layout
(`webTimestamp`), the app format attempts the primary layout then the
fallback layout; when none parses, the record carries the original
timestamp text verbatim. -/
theorem timestamp_parse_never_fails :
    (∀ line ip ts req st b n m, apacheGroups line = some (ip, ts, req, st, b) →
        pyInt st = some n → (if b = "-" then some 0 else pyInt b) = some (m : Int) →
        ∃ e, parse_apache line = some e ∧ e.timestamp = some (webTimestamp ts)
          ∧ (strptimeWeb ts = none → e.timestamp = some (.txt ts)))
    ∧ (∀ line ip ts req st b rf ua n m,
        nginxGroups line = some (ip, ts, req, st, b, rf, ua) →
        pyInt st = some n → pyInt b = some m →
        ∃ e, parse_nginx line = some e ∧ e.timestamp = some (webTimestamp ts)
          ∧ (strptimeWeb ts = none → e.timestamp = some (.txt ts)))
    ∧ (∀ line ts lvl mn msg, appGroups line = some (ts, lvl, mn, msg) →
        ∃ e, parse_app_log line = some e
          ∧ (∀ d, strptimeAppMicro ts = some d → e.timestamp = some (.dt d))
          ∧ (strptimeAppMicro ts = none →
              ∀ d, strptimeAppPlain ts = some d → e.timestamp = some (.dt d))
          ∧ (strptimeAppMicro ts = none → strptimeAppPlain ts = none →
              e.timestamp = some (.txt ts))) := by
  refine ⟨?_, ?_, ?_⟩
  · intro line ip ts req st b n m hg hst hbi
    unfold parse_apache
    rw [hg]
    dsimp only
    rcases parse_request req with ⟨m0, p0, v0⟩
    simp only [hst, hbi]
    refine ⟨_, rfl, rfl, fun hn => ?_⟩
    simp [webTimestamp, hn]
  · intro line ip ts req st b rf ua n m hg hst hbi
    unfold parse_nginx
    rw [hg]
    dsimp only
    rcases parse_request req with ⟨m0, p0, v0⟩
    simp only [hst, hbi]
    refine ⟨_, rfl, rfl, fun hn => ?_⟩
    simp [webTimestamp, hn]
  · intro line ts lvl mn msg hg
    unfold parse_app_log
    rw [hg]
    dsimp only
    refine ⟨_, rfl, fun d hd => ?_, fun hn d hd => ?_, fun hn1 hn2 => ?_⟩
    · simp [hd]
    · simp [hn, hd]
    · simp [hn1, hn2]

/-- Witness for C6: lines whose timestamp text parses against no known
layout still produce records carrying the text verbatim. -/
theorem timestamp_parse_never_fails_witness :
    (parse_apache "1.1.1.1 - - [not a date] \"GET /a HTTP/1.1\" 200 5").map Entry.timestamp
      = some (some (.txt "not a date"))
    ∧ (parse_app_log "[99/99] [WARN] [db] slow query").map Entry.timestamp
      = some (some (.txt "99/99")) := by
  constructor
  · obtain ⟨e, he, _, hr⟩ := timestamp_parse_never_fails.1
      "1.1.1.1 - - [not a date] \"GET /a HTTP/1.1\" 200 5" "1.1.1.1" "not a date"
      "GET /a HTTP/1.1" "200" "5" 200 5 (by decide) (by decide) (by decide)
    rw [he]
    simp [hr (by decide)]
  · obtain ⟨e, he, _, _, hr⟩ := timestamp_parse_never_fails.2.2
      "[99/99] [WARN] [db] slow query" "99/99" "WARN" "db" "slow query" (by decide)
    rw [he]
    simp [hr (by decide) (by decide)]

/-- C7 counterexample: a source line with a trailing space is stripped
before matching, so the produced record's `raw_entry` is the stripped
text, not the original source line verbatim. -/
theorem raw_entry_not_verbatim :
    (parse_log ["1.1.1.1 - - [bad ts] \"GET /a HTTP/1.1\" 200 7 "] (some "apache") none).map
        (List.map Entry.raw_entry)
      = .ok ["1.1.1.1 - - [bad ts] \"GET /a HTTP/1.1\" 200 7"]
    ∧ "1.1.1.1 - - [bad ts] \"GET /a HTTP/1.1\" 200 7"
        ≠ "1.1.1.1 - - [bad ts] \"GET /a HTTP/1.1\" 200 7 " :=
  ⟨by decide, by decide⟩


/-- The parse loop under an active cap `K`, with `c` non-blank lines
already counted, processes exactly the next `K - c` non-blank lines. -/
theorem parseLoop_cap (f : String) (K : Nat) :
    ∀ (ls : List String) (acc : List Entry) (c : Nat), c < K →
      parseLoop f (some (K : Int)) ls acc (c : Int) =
        acc ++ (((nonBlankLines ls).take (K - c)).filterMap (parseLine f)) := by
  intro ls
  induction ls with
  | nil =>
    intro acc c hc
    rw [parseLoop]
    simp [nonBlankLines]
  | cons l ls ih =>
    intro acc c hc
    rw [parseLoop]
    by_cases hb : (pyStrip l).isEmpty
    · rw [if_pos hb]
      have hnb : nonBlankLines (l :: ls) = nonBlankLines ls := by
        simp [nonBlankLines, List.filter_cons, hb]
      rw [hnb]
      exact ih acc c hc
    · rw [if_neg hb]
      have hnb : nonBlankLines (l :: ls) = pyStrip l :: nonBlankLines ls := by
        simp [nonBlankLines, List.filter_cons, hb]
      rw [hnb]
      by_cases hcap : K ≤ c + 1
      · have hKc : K = c + 1 := by omega
        have hcap2 : capReached (some (K : Int)) ((c : Int) + 1) = true := by
          simp only [capReached, Bool.and_eq_true, bne_iff_ne, ne_eq, decide_eq_true_eq]
          constructor
          · omega
          · omega
        rw [if_pos hcap2]
        have htake : K - c = 1 := by omega
        rw [htake]
        cases hpl : parseLine f (pyStrip l) with
        | none => simp [List.take_succ_cons, List.filterMap_cons, hpl]
        | some e => simp [List.take_succ_cons, List.filterMap_cons, hpl]
      · have hcap2 : capReached (some (K : Int)) ((c : Int) + 1) = false := by
          simp only [capReached, Bool.and_eq_false_iff, bne_eq_false_iff_eq, decide_eq_false_iff_not]
          right
          omega
        rw [if_neg (by simp [hcap2])]
        have hcast : ((c : Int) + 1) = (((c + 1 : Nat)) : Int) := by push_cast; ring
        rw [hcast, ih _ (c + 1) (by omega)]
        have htake : K - c = (K - (c + 1)) + 1 := by omega
        rw [htake, List.take_succ_cons]
        cases hpl : parseLine f (pyStrip l) with
        | none => simp [List.filterMap_cons, hpl]
        | some e => simp [List.filterMap_cons, hpl]

/-- If every element maps to `some`, `filterMap` keeps the length. -/
theorem length_filterMap_of_isSome {α β : Type} (g : α → Option β) :
    ∀ (l : List α), (∀ x ∈ l, (g x).isSome) → (l.filterMap g).length = l.length := by
  intro l
  induction l with
  | nil => simp
  | cons x xs ih =>
    intro h
    cases hg : g x with
    | none => exact absurd (h x (List.mem_cons_self x xs)) (by simp [hg])
    | some y =>
      simp [List.filterMap_cons, hg, ih (fun z hz => h z (List.mem_cons_of_mem x hz))]

/-- C4: with an explicit format and a cap `0 < k < N` (where `N` counts the
non-blank lines), `parse_log` considers exactly the first `k` non-blank
lines, in file order: the result is the in-order extraction from those `k`
stripped lines, its length is at most `k`, and it is exactly `k` when every
one of those lines extracts.  Blank lines are skipped before the counter is
touched, so they never count toward the cap. -/
theorem max_lines_cap_exact (lines : List String) (f : String) (k : Nat)
    (hf : f ≠ "") (h0 : 0 < k) (hN : k < (nonBlankLines lines).length) :
    parse_log lines (some f) (some (k : Int)) =
        .ok (((nonBlankLines lines).take k).filterMap (parseLine f))
    ∧ (((nonBlankLines lines).take k).filterMap (parseLine f)).length ≤ k
    ∧ ((∀ s ∈ (nonBlankLines lines).take k, (parseLine f s).isSome) →
        (((nonBlankLines lines).take k).filterMap (parseLine f)).length = k) := by
  refine ⟨?_, ?_, ?_⟩
  · unfold parse_log
    dsimp only
    rw [if_neg hf]
    have h := parseLoop_cap f k lines [] 0 h0
    simp only [Nat.cast_zero, Nat.sub_zero, List.nil_append] at h
    simp only [Except.map]
    rw [h]
  · exact le_trans (List.length_filterMap_le _ _) (by simp [List.length_take])
  · intro hall
    rw [length_filterMap_of_isSome _ _ hall]
    simp [List.length_take]
    omega

/-- Witness for C4: a five-line file with two blank lines and three
non-blank ones, capped at 2: exactly the first two non-blank lines are
considered (the second fails extraction, so one record results). -/
theorem max_lines_cap_exact_witness :
    parse_log ["", "1.1.1.1 - - [bad ts] \"GET /a HTTP/1.1\" 200 7", " ", "not a log line",
        "2.2.2.2 - - [bad ts] \"GET /b HTTP/1.1\" 404 -"] (some "apache") (some 2)
      = .ok (((nonBlankLines ["", "1.1.1.1 - - [bad ts] \"GET /a HTTP/1.1\" 200 7", " ",
          "not a log line",
          "2.2.2.2 - - [bad ts] \"GET /b HTTP/1.1\" 404 -"]).take 2).filterMap
            (parseLine "apache")) :=
  (max_lines_cap_exact _ "apache" 2 (by decide) (by decide) (by decide)).1

/-- C7 (amended): every record of a parse run keeps, in `raw_entry`, the
whitespace-stripped text of one of the file's lines (so the line verbatim
whenever it has no surrounding whitespace), even when other fields (such
as the timestamp) fail to parse; the per-line extractors themselves store
the line they are given unchanged.  Records are plain values, never
modified after construction. -/
theorem raw_entry_is_stripped_line :
    (∀ (lines : List String) (fmt : Option String) (k : Option Int) (es : List Entry),
        parse_log lines fmt k = .ok es →
        ∀ e ∈ es, ∃ l ∈ lines, e.raw_entry = pyStrip l)
    ∧ (∀ f line e, parseLine f line = some e → e.raw_entry = line) := by
  constructor
  · intro lines fmt k es h e he
    have hf : ∃ f, es = parseLoop f k lines [] 0 := by
      unfold parse_log at h
      cases fmt with
      | none =>
        cases hd : detectedFormat lines with
        | error msg => rw [hd] at h; cases h
        | ok f =>
          rw [hd] at h
          cases h
          exact ⟨f, rfl⟩
      | some f0 =>
        dsimp only at h
        by_cases h0 : f0 = ""
        · rw [if_pos h0] at h
          cases hd : detectedFormat lines with
          | error msg => rw [hd] at h; cases h
          | ok f =>
            rw [hd] at h
            cases h
            exact ⟨f, rfl⟩
        · rw [if_neg h0] at h
          cases h
          exact ⟨f0, rfl⟩
    obtain ⟨f, rfl⟩ := hf
    rcases mem_parseLoop f k lines [] 0 e he with h1 | ⟨l, hl, hpl⟩
    · cases h1
    · exact ⟨l, hl, parseLine_raw_entry f (pyStrip l) e hpl⟩
  · exact parseLine_raw_entry

/-- Witness for C7 (amended): the extractor stores the line it parses
unchanged in `raw_entry`. -/
theorem raw_entry_is_stripped_line_witness :
    (⟨some "1.1.1.1", some (.txt "bad ts"), some "POST", some "/b", some "", some 404,
      some 0, none, none, none, none, none,
      "1.1.1.1 - - [bad ts] \"POST /b\" 404 -"⟩ : Entry).raw_entry
      = "1.1.1.1 - - [bad ts] \"POST /b\" 404 -" :=
  raw_entry_is_stripped_line.2 "apache" _ _ (by decide)

/-- A counting loop over records that all expose the key succeeds and
produces the `bump`-fold over the extracted key sequence. -/
theorem foldlM_countStep_ok {α : Type} [DecidableEq α] (get : Entry → Option α) (key : String) :
    ∀ (entries : List Entry) (acc : List (α × Nat)),
      (∀ e ∈ entries, (get e).isSome) →
      List.foldlM (countStep get key) acc entries
        = .ok ((entries.filterMap get).foldl bump acc) := by
  intro entries
  induction entries with
  | nil => intro acc h; rfl
  | cons e es ih =>
    intro acc h
    cases hg : get e with
    | none => exact absurd (h e (List.mem_cons_self e es)) (by simp [hg])
    | some v =>
      rw [List.foldlM_cons]
      have hstep : countStep get key acc e = .ok (bump acc v) := by simp [countStep, hg]
      rw [hstep]
      show List.foldlM (countStep get key) (bump acc v) es = _
      rw [ih (bump acc v) (fun z hz => h z (List.mem_cons_of_mem e hz))]
      simp [List.filterMap_cons, hg]

/-- `countField` phrased through the previous lemma. -/
theorem countField_ok_of_isSome {α : Type} [DecidableEq α] (get : Entry → Option α)
    (key : String) (entries : List Entry) (h : ∀ e ∈ entries, (get e).isSome) :
    countField get key entries = .ok (buildCounts (entries.filterMap get)) :=
  foldlM_countStep_ok get key entries [] h

/-- A counting loop that succeeded saw the key on every record. -/
theorem foldlM_countStep_isSome {α : Type} [DecidableEq α] (get : Entry → Option α)
    (key : String) :
    ∀ (entries : List Entry) (acc cs : List (α × Nat)),
      List.foldlM (countStep get key) acc entries = .ok cs →
      ∀ e ∈ entries, (get e).isSome := by
  intro entries
  induction entries with
  | nil => intro acc cs h e he; cases he
  | cons e0 es ih =>
    intro acc cs h e he
    cases hg : get e0 with
    | none =>
      rw [List.foldlM_cons] at h
      have hstep : countStep get key acc e0 = .error key := by simp [countStep, hg]
      rw [hstep] at h
      cases h
    | some v =>
      rcases List.mem_cons.mp he with rfl | hes
      · simp [hg]
      · rw [List.foldlM_cons] at h
        have hstep : countStep get key acc e0 = .ok (bump acc v) := by simp [countStep, hg]
        rw [hstep] at h
        exact ih (bump acc v) cs h e hes

/-- C3 counterexample: on a mixed-shape sequence — an apache record first,
an app record second — the analyzer raises `KeyError` for `"ip"` instead
of skipping the dimension: `entry["ip"]` is read from every record once
the first record has the key. -/
theorem analyze_mixed_shape_raises :
    (parse_apache "1.1.1.1 - - [bad ts] \"POST /b\" 404 -").bind
      (fun e1 => (parse_app_log "[t] [INFO] [auth] ok").map (fun e2 => analyze [e1, e2]))
      = some (.error "ip") := by decide

/-- C3 (amended): the analyzer chooses its dimensions from the first
record only; on a sequence in which every record exposes the fields the
first record promises (in particular any single-format sequence), it never
fails, and the output contains exactly the dimensions whose source fields
the first record has — never a dimension whose source field was absent.
On a mixed-shape sequence in which a later record lacks a promised field,
it raises a key-lookup error instead of skipping the dimension. -/
theorem analyze_uniform_shape_safe (e0 : Entry) (rest : List Entry)
    (hip : e0.ip.isSome = true → ∀ e ∈ e0 :: rest, e.ip.isSome ∧ e.status.isSome)
    (hpath : e0.ip.isSome = true → e0.path.isSome = true → ∀ e ∈ e0 :: rest, e.path.isSome)
    (hlvl : e0.level.isSome = true → ∀ e ∈ e0 :: rest, e.level.isSome)
    (hmod : e0.level.isSome = true → e0.module.isSome = true →
      ∀ e ∈ e0 :: rest, e.module.isSome) :
    ∃ a, analyze (e0 :: rest) = .ok (.stats a)
      ∧ a.top_ips.isSome = e0.ip.isSome
      ∧ a.status_codes.isSome = e0.ip.isSome
      ∧ a.top_paths.isSome = (e0.ip.isSome && e0.path.isSome)
      ∧ a.log_levels.isSome = e0.level.isSome
      ∧ a.top_modules.isSome = (e0.level.isSome && e0.module.isSome) := by
  cases hip0 : e0.ip.isSome with
  | false =>
    cases hlvl0 : e0.level.isSome with
    | false =>
      refine ⟨⟨none,
          none,
          none,
          none,
          none⟩,
          ?_, by simp [hip0], by simp [hip0], by simp [hip0],
          by simp [hlvl0], by simp [hlvl0]⟩
      rw [analyze]
      simp only [hip0, hlvl0, Bool.false_eq_true, if_false, if_true]
      rfl
    | true =>
      have hlc := countField_ok_of_isSome Entry.level "level" _ (hlvl hlvl0)
      cases hmod0 : e0.module.isSome with
      | false =>
        refine ⟨⟨none,
            none,
            none,
            some (buildCounts ((e0 :: rest).filterMap Entry.level)),
            none⟩,
            ?_, by simp [hip0], by simp [hip0], by simp [hip0],
            by simp [hlvl0], by simp [hlvl0, hmod0]⟩
        rw [analyze]
        simp only [hip0, hlvl0, hmod0, hlc, Bool.false_eq_true, if_false, if_true]
        rfl
      | true =>
        have hmc := countField_ok_of_isSome Entry.module "module" _ (hmod hlvl0 hmod0)
        refine ⟨⟨none,
            none,
            none,
            some (buildCounts ((e0 :: rest).filterMap Entry.level)),
            some ((sortCountDesc (buildCounts ((e0 :: rest).filterMap Entry.module))).take 10)⟩,
            ?_, by simp [hip0], by simp [hip0], by simp [hip0],
            by simp [hlvl0], by simp [hlvl0, hmod0]⟩
        rw [analyze]
        simp only [hip0, hlvl0, hmod0, hlc, hmc, Bool.false_eq_true, if_false, if_true]
        rfl
  | true =>
    have hipc := countField_ok_of_isSome Entry.ip "ip" _ (fun e he => (hip hip0 e he).1)
    have hstc := countField_ok_of_isSome Entry.status "status" _ (fun e he => (hip hip0 e he).2)
    cases hpath0 : e0.path.isSome with
    | false =>
      cases hlvl0 : e0.level.isSome with
      | false =>
        refine ⟨⟨some ((sortCountDesc (buildCounts ((e0 :: rest).filterMap Entry.ip))).take 10),
            some (buildCounts ((e0 :: rest).filterMap Entry.status)),
            none,
            none,
            none⟩,
            ?_, by simp [hip0], by simp [hip0], by simp [hip0, hpath0],
            by simp [hlvl0], by simp [hlvl0]⟩
        rw [analyze]
        simp only [hip0, hpath0, hlvl0, hipc, hstc, Bool.false_eq_true, if_false, if_true]
        rfl
      | true =>
        have hlc := countField_ok_of_isSome Entry.level "level" _ (hlvl hlvl0)
        cases hmod0 : e0.module.isSome with
        | false =>
          refine ⟨⟨some ((sortCountDesc (buildCounts ((e0 :: rest).filterMap Entry.ip))).take 10),
              some (buildCounts ((e0 :: rest).filterMap Entry.status)),
              none,
              some (buildCounts ((e0 :: rest).filterMap Entry.level)),
              none⟩,
              ?_, by simp [hip0], by simp [hip0], by simp [hip0, hpath0],
              by simp [hlvl0], by simp [hlvl0, hmod0]⟩
          rw [analyze]
          simp only [hip0, hpath0, hlvl0, hmod0, hipc, hstc, hlc, Bool.false_eq_true, if_false, if_true]
          rfl
        | true =>
          have hmc := countField_ok_of_isSome Entry.module "module" _ (hmod hlvl0 hmod0)
          refine ⟨⟨some ((sortCountDesc (buildCounts ((e0 :: rest).filterMap Entry.ip))).take 10),
              some (buildCounts ((e0 :: rest).filterMap Entry.status)),
              none,
              some (buildCounts ((e0 :: rest).filterMap Entry.level)),
              some ((sortCountDesc (buildCounts ((e0 :: rest).filterMap Entry.module))).take 10)⟩,
              ?_, by simp [hip0], by simp [hip0], by simp [hip0, hpath0],
              by simp [hlvl0], by simp [hlvl0, hmod0]⟩
          rw [analyze]
          simp only [hip0, hpath0, hlvl0, hmod0, hipc, hstc, hlc, hmc, Bool.false_eq_true, if_false, if_true]
          rfl
    | true =>
      have hpc := countField_ok_of_isSome Entry.path "path" _ (hpath hip0 hpath0)
      cases hlvl0 : e0.level.isSome with
      | false =>
        refine ⟨⟨some ((sortCountDesc (buildCounts ((e0 :: rest).filterMap Entry.ip))).take 10),
            some (buildCounts ((e0 :: rest).filterMap Entry.status)),
            some ((sortCountDesc (buildCounts ((e0 :: rest).filterMap Entry.path))).take 10),
            none,
            none⟩,
            ?_, by simp [hip0], by simp [hip0], by simp [hip0, hpath0],
            by simp [hlvl0], by simp [hlvl0]⟩
        rw [analyze]
        simp only [hip0, hpath0, hlvl0, hipc, hstc, hpc, Bool.false_eq_true, if_false, if_true]
        rfl
      | true =>
        have hlc := countField_ok_of_isSome Entry.level "level" _ (hlvl hlvl0)
        cases hmod0 : e0.module.isSome with
        | false =>
          refine ⟨⟨some ((sortCountDesc (buildCounts ((e0 :: rest).filterMap Entry.ip))).take 10),
              some (buildCounts ((e0 :: rest).filterMap Entry.status)),
              some ((sortCountDesc (buildCounts ((e0 :: rest).filterMap Entry.path))).take 10),
              some (buildCounts ((e0 :: rest).filterMap Entry.level)),
              none⟩,
              ?_, by simp [hip0], by simp [hip0], by simp [hip0, hpath0],
              by simp [hlvl0], by simp [hlvl0, hmod0]⟩
          rw [analyze]
          simp only [hip0, hpath0, hlvl0, hmod0, hipc, hstc, hpc, hlc, Bool.false_eq_true, if_false, if_true]
          rfl
        | true =>
          have hmc := countField_ok_of_isSome Entry.module "module" _ (hmod hlvl0 hmod0)
          refine ⟨⟨some ((sortCountDesc (buildCounts ((e0 :: rest).filterMap Entry.ip))).take 10),
              some (buildCounts ((e0 :: rest).filterMap Entry.status)),
              some ((sortCountDesc (buildCounts ((e0 :: rest).filterMap Entry.path))).take 10),
              some (buildCounts ((e0 :: rest).filterMap Entry.level)),
              some ((sortCountDesc (buildCounts ((e0 :: rest).filterMap Entry.module))).take 10)⟩,
              ?_, by simp [hip0], by simp [hip0], by simp [hip0, hpath0],
              by simp [hlvl0], by simp [hlvl0, hmod0]⟩
          rw [analyze]
          simp only [hip0, hpath0, hlvl0, hmod0, hipc, hstc, hpc, hlc, hmc, Bool.false_eq_true, if_false, if_true]
          rfl

/-- Witness for C3 (amended): a uniform two-record web-shaped sequence is
analyzed without any error. -/
theorem analyze_uniform_shape_safe_witness :
    (analyze [⟨some "1.1.1.1", some (.txt "bad ts"), some "POST", some "/b", some "",
        some 404, some 0, none, none, none, none, none, "a"⟩,
      ⟨some "2.2.2.2", some (.txt "bad ts"), some "GET", some "/c", some "",
        some 200, some 5, none, none, none, none, none, "b"⟩]).isOk = true := by
  obtain ⟨a, ha, -, -, -, -, -⟩ := analyze_uniform_shape_safe
    ⟨some "1.1.1.1", some (.txt "bad ts"), some "POST", some "/b", some "",
        some 404, some 0, none, none, none, none, none, "a"⟩
    [⟨some "2.2.2.2", some (.txt "bad ts"), some "GET", some "/c", some "",
        some 200, some 5, none, none, none, none, none, "b"⟩]
    (by decide) (by decide) (by decide) (by decide)
  rw [ha]
  rfl

/-- Inserting preserves the multiset of elements. -/
theorem perm_insertDesc {α : Type} (x : α × Nat) (l : List (α × Nat)) :
    List.Perm (insertDesc x l) (x :: l) := by
  induction l with
  | nil => exact List.Perm.refl _
  | cons y ys ih =>
    rw [insertDesc]
    by_cases h : y.2 ≤ x.2
    · rw [if_pos h]
    · rw [if_neg h]
      exact (ih.cons y).trans (List.Perm.swap x y ys)

/-- The stable descending sort is a permutation of its input. -/
theorem perm_sortCountDesc {α : Type} (l : List (α × Nat)) :
    List.Perm (sortCountDesc l) l := by
  induction l with
  | nil => exact List.Perm.refl _
  | cons x xs ih =>
    rw [sortCountDesc]
    exact (perm_insertDesc x (sortCountDesc xs)).trans (ih.cons x)

/-- Inserting into a descending-by-count list keeps it descending. -/
theorem pairwise_insertDesc {α : Type} (x : α × Nat) (l : List (α × Nat))
    (h : l.Pairwise (fun p q => q.2 ≤ p.2)) :
    (insertDesc x l).Pairwise (fun p q => q.2 ≤ p.2) := by
  induction l with
  | nil => simp [insertDesc]
  | cons y ys ih =>
    rw [insertDesc]
    obtain ⟨hy, hys⟩ := List.pairwise_cons.mp h
    by_cases hc : y.2 ≤ x.2
    · rw [if_pos hc]
      refine List.pairwise_cons.mpr ⟨?_, h⟩
      intro z hz
      rcases List.mem_cons.mp hz with rfl | hz2
      · exact hc
      · exact le_trans (hy z hz2) hc
    · rw [if_neg hc]
      refine List.pairwise_cons.mpr ⟨?_, ih hys⟩
      intro z hz
      rcases List.mem_cons.mp ((perm_insertDesc x ys).subset hz) with rfl | hz2
      · exact le_of_not_le hc
      · exact hy z hz2

/-- The stable descending sort is sorted by descending count. -/
theorem pairwise_sortCountDesc {α : Type} (l : List (α × Nat)) :
    (sortCountDesc l).Pairwise (fun p q => q.2 ≤ p.2) := by
  induction l with
  | nil => simp [sortCountDesc]
  | cons x xs ih =>
    rw [sortCountDesc]
    exact pairwise_insertDesc x _ ih

/-- The list is a sublist of any insertion into it. -/
theorem sublist_insertDesc {α : Type} (x : α × Nat) (l : List (α × Nat)) :
    List.Sublist l (insertDesc x l) := by
  induction l with
  | nil => simp [insertDesc]
  | cons y ys ih =>
    rw [insertDesc]
    by_cases hc : y.2 ≤ x.2
    · rw [if_pos hc]
      exact List.Sublist.cons x (List.Sublist.refl (y :: ys))
    · rw [if_neg hc]
      exact List.Sublist.cons₂ y ih

/-- Stability core: inserting `x` puts it before every equal-count element
already present. -/
theorem pair_sublist_insertDesc {α : Type} (x y : α × Nat) (hxy : x.2 = y.2) :
    ∀ (l : List (α × Nat)), y ∈ l → List.Sublist [x, y] (insertDesc x l) := by
  intro l
  induction l with
  | nil => intro hy; cases hy
  | cons w ws ih =>
    intro hy
    rw [insertDesc]
    by_cases hc : w.2 ≤ x.2
    · rw [if_pos hc]
      exact List.Sublist.cons₂ x (List.singleton_sublist.mpr hy)
    · rw [if_neg hc]
      have hyw : y ≠ w := by
        intro he
        exact hc (le_of_eq (by rw [← he, ← hxy]))
      have hy2 : y ∈ ws := by
        rcases List.mem_cons.mp hy with rfl | h2
        · exact absurd rfl hyw
        · exact h2
      exact List.Sublist.cons w (ih hy2)

/-- Stability of the sort: two equal-count elements keep their relative
order. -/
theorem pair_sublist_sortCountDesc {α : Type} (x y : α × Nat) (hxy : x.2 = y.2) :
    ∀ (l : List (α × Nat)), List.Sublist [x, y] l → List.Sublist [x, y] (sortCountDesc l) := by
  intro l
  induction l with
  | nil => intro h; exact absurd (h.subset (List.mem_cons_self x [y])) (by simp)
  | cons z zs ih =>
    intro h
    rw [sortCountDesc]
    cases h with
    | cons _ h2 =>
      exact (ih h2).trans (sublist_insertDesc z (sortCountDesc zs))
    | cons₂ _ h2 =>
      exact pair_sublist_insertDesc x y hxy _
        ((perm_sortCountDesc zs).mem_iff.mpr (List.singleton_sublist.mp h2))

/-- Truncation keeps an ordered pair of distinct elements when the later
one survives the cut (on duplicate-free lists). -/
theorem pair_sublist_take {α : Type} [DecidableEq α] (x y : α × Nat) (hxy : x ≠ y) :
    ∀ (l : List (α × Nat)) (n : Nat), l.Nodup → List.Sublist [x, y] l → y ∈ l.take n →
      List.Sublist [x, y] (l.take n) := by
  intro l
  induction l with
  | nil => intro n _ h _; exact absurd (h.subset (List.mem_cons_self x [y])) (by simp)
  | cons z zs ih =>
    intro n hnd h hy
    cases n with
    | zero => simp at hy
    | succ m =>
      rw [List.take_succ_cons] at hy ⊢
      obtain ⟨hz, hnd2⟩ := List.nodup_cons.mp hnd
      cases h with
      | cons _ h2 =>
        have hyz : y ≠ z := by
          intro he
          exact hz (he ▸ h2.subset (by simp))
        have hy2 : y ∈ zs.take m := by
          rcases List.mem_cons.mp hy with rfl | h3
          · exact absurd rfl hyz
          · exact h3
        exact List.Sublist.cons z (ih m hnd2 h2 hy2)
      | cons₂ _ h2 =>
        have hyx : y ≠ x := fun he => hxy he.symm
        have hy2 : y ∈ zs.take m := by
          rcases List.mem_cons.mp hy with rfl | h3
          · exact absurd rfl hyx
          · exact h3
        exact List.Sublist.cons₂ x (List.singleton_sublist.mpr hy2)

/-- One counting step leaves the key list unchanged or appends the new
key. -/
theorem bump_map_fst {α : Type} [DecidableEq α] (k : α) :
    ∀ (l : List (α × Nat)),
      (bump l k).map Prod.fst =
        if k ∈ l.map Prod.fst then l.map Prod.fst else l.map Prod.fst ++ [k] := by
  intro l
  induction l with
  | nil => simp [bump]
  | cons p t ih =>
    obtain ⟨a, n⟩ := p
    rw [bump]
    by_cases hak : a = k
    · subst hak
      rw [if_pos rfl]
      simp
    · rw [if_neg hak]
      simp only [List.map_cons]
      rw [ih]
      by_cases hk : k ∈ t.map Prod.fst
      · rw [if_pos hk, if_pos (by simp [hk])]
      · rw [if_neg hk, if_neg (by simp [hk, Ne.symm hak])]
        simp

/-- The counting fold's key list is the first-seen fold of the keys. -/
theorem foldl_bump_map_fst {α : Type} [DecidableEq α] :
    ∀ (ks : List α) (init : List (α × Nat)),
      (ks.foldl bump init).map Prod.fst =
        ks.foldl (fun acc k => if k ∈ acc then acc else acc ++ [k]) (init.map Prod.fst) := by
  intro ks
  induction ks with
  | nil => intro init; simp
  | cons k ks ih =>
    intro init
    rw [List.foldl_cons, List.foldl_cons, ih, bump_map_fst]

/-- The counting dict's keys are the key sequence's distinct values in
first-appearance order. -/
theorem buildCounts_map_fst {α : Type} [DecidableEq α] (ks : List α) :
    (buildCounts ks).map Prod.fst = firstSeen ks := by
  rw [buildCounts, firstSeen, foldl_bump_map_fst]
  rfl

/-- The first-seen fold never creates duplicates. -/
theorem nodup_foldl_firstSeen {α : Type} [DecidableEq α] :
    ∀ (ks : List α) (init : List α), init.Nodup →
      (ks.foldl (fun acc k => if k ∈ acc then acc else acc ++ [k]) init).Nodup := by
  intro ks
  induction ks with
  | nil => intro init h; simpa using h
  | cons k ks ih =>
    intro init h
    rw [List.foldl_cons]
    apply ih
    by_cases hk : k ∈ init
    · simpa [hk] using h
    · simp [hk, List.nodup_append, h]

/-- The counting dict has pairwise-distinct entries. -/
theorem nodup_buildCounts {α : Type} [DecidableEq α] (ks : List α) :
    (buildCounts ks).Nodup := by
  have h1 : ((buildCounts ks).map Prod.fst).Nodup := by
    rw [buildCounts_map_fst]
    exact nodup_foldl_firstSeen ks [] (by simp)
  exact List.Nodup.of_map Prod.fst h1

/-- A successful `countField` saw the key on every record. -/
theorem countField_ok_isSome {α : Type} [DecidableEq α] (get : Entry → Option α)
    (key : String) (entries : List Entry) (cs : List (α × Nat))
    (h : countField get key entries = .ok cs) : ∀ e ∈ entries, (get e).isSome :=
  foldlM_countStep_isSome get key entries [] cs h

/-- A successful `countField` result is the counting fold of the key
sequence. -/
theorem countField_ok_eq {α : Type} [DecidableEq α] (get : Entry → Option α)
    (key : String) (entries : List Entry) (cs : List (α × Nat))
    (h : countField get key entries = .ok cs) :
    cs = buildCounts (entries.filterMap get) := by
  have heq := countField_ok_of_isSome get key entries
    (countField_ok_isSome get key entries cs h)
  rw [h] at heq
  injection heq with hx

/-- The three rankings all have the same shape; this bundles their
properties: truncation to ten, descending counts, first-appearance key
order of the underlying counting dict, and tie stability. -/
theorem topTen_props {α : Type} [DecidableEq α] (ks : List α) :
    ((sortCountDesc (buildCounts ks)).take 10).length ≤ 10
    ∧ ((sortCountDesc (buildCounts ks)).take 10).Pairwise (fun p q => q.2 ≤ p.2)
    ∧ (buildCounts ks).map Prod.fst = firstSeen ks
    ∧ (∀ x y, x ≠ y → x.2 = y.2 → List.Sublist [x, y] (buildCounts ks) →
        y ∈ (sortCountDesc (buildCounts ks)).take 10 →
        List.Sublist [x, y] ((sortCountDesc (buildCounts ks)).take 10)) := by
  refine ⟨List.length_take_le _ _, ?_, buildCounts_map_fst ks, ?_⟩
  · exact List.Pairwise.sublist (List.take_sublist _ _) (pairwise_sortCountDesc _)
  · intro x y hne hcnt hsub hy
    have hnd : (sortCountDesc (buildCounts ks)).Nodup :=
      (perm_sortCountDesc _).nodup_iff.mpr (nodup_buildCounts ks)
    exact pair_sublist_take x y hne _ 10 hnd
      (pair_sublist_sortCountDesc x y hcnt _ hsub) hy

/-- What a successful analysis says about the three rankings: each is the
truncated stable sort of the counting dict of its key sequence, present
exactly when the first record exposes the dimension. -/
theorem analyze_stats_char (e0 : Entry) (rest : List Entry) (a : Analysis)
    (h : analyze (e0 :: rest) = .ok (.stats a)) :
    a.top_ips = (if e0.ip.isSome then
        some ((sortCountDesc (buildCounts ((e0 :: rest).filterMap Entry.ip))).take 10)
      else none)
    ∧ a.top_paths = (if e0.ip.isSome && e0.path.isSome then
        some ((sortCountDesc (buildCounts ((e0 :: rest).filterMap Entry.path))).take 10)
      else none)
    ∧ a.top_modules = (if e0.level.isSome && e0.module.isSome then
        some ((sortCountDesc (buildCounts ((e0 :: rest).filterMap Entry.module))).take 10)
      else none) := by
  rw [analyze] at h
  cases hip0 : e0.ip.isSome with
  | false =>
    rw [hip0] at h
    cases hlvl0 : e0.level.isSome with
    | false =>
      rw [hlvl0] at h
      simp only [hip0, hlvl0, if_true, Bool.false_eq_true, if_false, Bind.bind, Except.bind, Functor.map, Except.map, pure, Except.pure] at h
      cases h
      simp [hip0, hlvl0]
    | true =>
      rw [hlvl0] at h
      cases hc4 : countField Entry.level "level" (e0 :: rest) with
      | error msg =>
        rw [hc4] at h
        simp [Bind.bind, Except.bind, Functor.map, Except.map, pure, Except.pure] at h
      | ok cs4 =>
        rw [hc4] at h
        cases hmod0 : e0.module.isSome with
        | false =>
          rw [hmod0] at h
          simp only [hip0, hlvl0, hmod0, if_true, Bool.false_eq_true, if_false, Bind.bind, Except.bind, Functor.map, Except.map, pure, Except.pure] at h
          cases h
          simp [hip0, hlvl0, hmod0]
        | true =>
          rw [hmod0] at h
          cases hc5 : countField Entry.module "module" (e0 :: rest) with
          | error msg =>
            rw [hc5] at h
            simp [Bind.bind, Except.bind, Functor.map, Except.map, pure, Except.pure] at h
          | ok cs5 =>
            rw [hc5] at h
            have hvcs5 := countField_ok_eq Entry.module "module" (e0 :: rest) cs5 hc5
            subst hvcs5
            simp only [hip0, hlvl0, hmod0, if_true, Bool.false_eq_true, if_false, Bind.bind, Except.bind, Functor.map, Except.map, pure, Except.pure] at h
            cases h
            simp [hip0, hlvl0, hmod0]
  | true =>
    rw [hip0] at h
    cases hc1 : countField Entry.ip "ip" (e0 :: rest) with
    | error msg =>
      rw [hc1] at h
      simp [Bind.bind, Except.bind, Functor.map, Except.map, pure, Except.pure] at h
    | ok cs1 =>
      rw [hc1] at h
      have hvcs1 := countField_ok_eq Entry.ip "ip" (e0 :: rest) cs1 hc1
      subst hvcs1
      cases hc2 : countField Entry.status "status" (e0 :: rest) with
      | error msg =>
        rw [hc2] at h
        simp [Bind.bind, Except.bind, Functor.map, Except.map, pure, Except.pure] at h
      | ok cs2 =>
        rw [hc2] at h
        cases hpath0 : e0.path.isSome with
        | false =>
          rw [hpath0] at h
          cases hlvl0 : e0.level.isSome with
          | false =>
            rw [hlvl0] at h
            simp only [hip0, hpath0, hlvl0, if_true, Bool.false_eq_true, if_false, Bind.bind, Except.bind, Functor.map, Except.map, pure, Except.pure] at h
            cases h
            simp [hip0, hpath0, hlvl0]
          | true =>
            rw [hlvl0] at h
            cases hc4 : countField Entry.level "level" (e0 :: rest) with
            | error msg =>
              rw [hc4] at h
              simp [Bind.bind, Except.bind, Functor.map, Except.map, pure, Except.pure] at h
            | ok cs4 =>
              rw [hc4] at h
              cases hmod0 : e0.module.isSome with
              | false =>
                rw [hmod0] at h
                simp only [hip0, hpath0, hlvl0, hmod0, if_true, Bool.false_eq_true, if_false, Bind.bind, Except.bind, Functor.map, Except.map, pure, Except.pure] at h
                cases h
                simp [hip0, hpath0, hlvl0, hmod0]
              | true =>
                rw [hmod0] at h
                cases hc5 : countField Entry.module "module" (e0 :: rest) with
                | error msg =>
                  rw [hc5] at h
                  simp [Bind.bind, Except.bind, Functor.map, Except.map, pure, Except.pure] at h
                | ok cs5 =>
                  rw [hc5] at h
                  have hvcs5 := countField_ok_eq Entry.module "module" (e0 :: rest) cs5 hc5
                  subst hvcs5
                  simp only [hip0, hpath0, hlvl0, hmod0, if_true, Bool.false_eq_true, if_false, Bind.bind, Except.bind, Functor.map, Except.map, pure, Except.pure] at h
                  cases h
                  simp [hip0, hpath0, hlvl0, hmod0]
        | true =>
          rw [hpath0] at h
          cases hc3 : countField Entry.path "path" (e0 :: rest) with
          | error msg =>
            rw [hc3] at h
            simp [Bind.bind, Except.bind, Functor.map, Except.map, pure, Except.pure] at h
          | ok cs3 =>
            rw [hc3] at h
            have hvcs3 := countField_ok_eq Entry.path "path" (e0 :: rest) cs3 hc3
            subst hvcs3
            cases hlvl0 : e0.level.isSome with
            | false =>
              rw [hlvl0] at h
              simp only [hip0, hpath0, hlvl0, if_true, Bool.false_eq_true, if_false, Bind.bind, Except.bind, Functor.map, Except.map, pure, Except.pure] at h
              cases h
              simp [hip0, hpath0, hlvl0]
            | true =>
              rw [hlvl0] at h
              cases hc4 : countField Entry.level "level" (e0 :: rest) with
              | error msg =>
                rw [hc4] at h
                simp [Bind.bind, Except.bind, Functor.map, Except.map, pure, Except.pure] at h
              | ok cs4 =>
                rw [hc4] at h
                cases hmod0 : e0.module.isSome with
                | false =>
                  rw [hmod0] at h
                  simp only [hip0, hpath0, hlvl0, hmod0, if_true, Bool.false_eq_true, if_false, Bind.bind, Except.bind, Functor.map, Except.map, pure, Except.pure] at h
                  cases h
                  simp [hip0, hpath0, hlvl0, hmod0]
                | true =>
                  rw [hmod0] at h
                  cases hc5 : countField Entry.module "module" (e0 :: rest) with
                  | error msg =>
                    rw [hc5] at h
                    simp [Bind.bind, Except.bind, Functor.map, Except.map, pure, Except.pure] at h
                  | ok cs5 =>
                    rw [hc5] at h
                    have hvcs5 := countField_ok_eq Entry.module "module" (e0 :: rest) cs5 hc5
                    subst hvcs5
                    simp only [hip0, hpath0, hlvl0, hmod0, if_true, Bool.false_eq_true, if_false, Bind.bind, Except.bind, Functor.map, Except.map, pure, Except.pure] at h
                    cases h
                    simp [hip0, hpath0, hlvl0, hmod0]

/-- C8: every top-10 ranking the analyzer produces — by source address,
by path, by module — is the stable descending-by-count sort of its
counting dict truncated to at most ten entries: it is sorted by descending
count, has length at most ten, the counting dict lists keys in
first-appearance order of the key sequence, and ties are broken by that
order (two distinct equal-count entries keep their relative dict order in
the ranking). -/
theorem top_rankings_sorted_stable (entries : List Entry) (a : Analysis)
    (h : analyze entries = .ok (.stats a)) :
    (∀ l, a.top_ips = some l →
      l = (sortCountDesc (buildCounts (entries.filterMap Entry.ip))).take 10
      ∧ l.length ≤ 10
      ∧ l.Pairwise (fun p q => q.2 ≤ p.2)
      ∧ (buildCounts (entries.filterMap Entry.ip)).map Prod.fst
          = firstSeen (entries.filterMap Entry.ip)
      ∧ (∀ x y, x ≠ y → x.2 = y.2 →
          List.Sublist [x, y] (buildCounts (entries.filterMap Entry.ip)) →
          y ∈ l → List.Sublist [x, y] l))
    ∧ (∀ l, a.top_paths = some l →
      l = (sortCountDesc (buildCounts (entries.filterMap Entry.path))).take 10
      ∧ l.length ≤ 10
      ∧ l.Pairwise (fun p q => q.2 ≤ p.2)
      ∧ (buildCounts (entries.filterMap Entry.path)).map Prod.fst
          = firstSeen (entries.filterMap Entry.path)
      ∧ (∀ x y, x ≠ y → x.2 = y.2 →
          List.Sublist [x, y] (buildCounts (entries.filterMap Entry.path)) →
          y ∈ l → List.Sublist [x, y] l))
    ∧ (∀ l, a.top_modules = some l →
      l = (sortCountDesc (buildCounts (entries.filterMap Entry.module))).take 10
      ∧ l.length ≤ 10
      ∧ l.Pairwise (fun p q => q.2 ≤ p.2)
      ∧ (buildCounts (entries.filterMap Entry.module)).map Prod.fst
          = firstSeen (entries.filterMap Entry.module)
      ∧ (∀ x y, x ≠ y → x.2 = y.2 →
          List.Sublist [x, y] (buildCounts (entries.filterMap Entry.module)) →
          y ∈ l → List.Sublist [x, y] l)) := by
  cases entries with
  | nil =>
    rw [analyze] at h
    simp at h
  | cons e0 rest =>
    obtain ⟨h1, h2, h3⟩ := analyze_stats_char e0 rest a h
    refine ⟨?_, ?_, ?_⟩
    · intro l hl
      rw [h1] at hl
      by_cases hip0 : e0.ip.isSome = true
      · rw [if_pos hip0] at hl
        injection hl with hl2
        subst hl2
        obtain ⟨p1, p2, p3, p4⟩ := topTen_props ((e0 :: rest).filterMap Entry.ip)
        exact ⟨rfl, p1, p2, p3, p4⟩
      · rw [if_neg hip0] at hl
        cases hl
    · intro l hl
      rw [h2] at hl
      by_cases hc : (e0.ip.isSome && e0.path.isSome) = true
      · rw [if_pos hc] at hl
        injection hl with hl2
        subst hl2
        obtain ⟨p1, p2, p3, p4⟩ := topTen_props ((e0 :: rest).filterMap Entry.path)
        exact ⟨rfl, p1, p2, p3, p4⟩
      · rw [if_neg hc] at hl
        cases hl
    · intro l hl
      rw [h3] at hl
      by_cases hc : (e0.level.isSome && e0.module.isSome) = true
      · rw [if_pos hc] at hl
        injection hl with hl2
        subst hl2
        obtain ⟨p1, p2, p3, p4⟩ := topTen_props ((e0 :: rest).filterMap Entry.module)
        exact ⟨rfl, p1, p2, p3, p4⟩
      · rw [if_neg hc] at hl
        cases hl

/-- Witness for C8: three addresses with equal counts appearing in order
A, B, C keep that relative order in the ranking (instantiated on the pair
A before C). -/
theorem top_rankings_sorted_stable_witness :
    List.Sublist [(("A" : String), 1), (("C" : String), 1)]
      [(("A" : String), 1), (("B" : String), 1), (("C" : String), 1)] := by
  have hst := (top_rankings_sorted_stable
      [⟨some "A", none, none, none, none, some 200, none, none, none, none, none, none, "a"⟩,
       ⟨some "B", none, none, none, none, some 200, none, none, none, none, none, none, "b"⟩,
       ⟨some "C", none, none, none, none, some 200, none, none, none, none, none, none, "c"⟩]
      ⟨some [("A", 1), ("B", 1), ("C", 1)], some [(200, 3)], none, none, none⟩
      (by decide)).1 [("A", 1), ("B", 1), ("C", 1)] (by decide)
  exact hst.2.2.2.2 ("A", 1) ("C", 1) (by decide) (by decide) (by decide) (by decide)

end LogParser
